import Mathlib

/-!
# Verification of the `format-engine` core

A shallow embedding of the generic (`engine[T]`) snapshot of the
`gromey/format-engine` Go library, together with proofs settling the frozen
claims about it.  The embedded source files are:

* `src/unnamed/part_000` — `Engine`, `Tag`, `Config`, `New`;
* `src/common.go` (generic half) — `field`, `typeFields`, `typeCoders`,
  `isEmptyValue`, `context`, `setError`;
* `src/encode.go` (generic half) — `Marshal`, `encodeState`, the per-kind
  encoders and `structFields.encode`;
* `src/unnamed/part_002` — `Unmarshal`, `decodeState`, the per-kind decoders
  and `structFields.decode`.

Modelling conventions:

* Go `reflect.Type` becomes the inductive `Ty`; Go values become the
  inductive `Value`.  Byte buffers (`[]byte`, `bytes.Buffer`) are `List Char`
  (the claims only exercise ASCII data).  Float kinds, interface kinds and
  fixed-size arrays are folded into `Ty.tother` (an unsupported kind); none
  of the claims concerns them.  `tint`/`tuint` model the 64-bit integer
  kinds (`bitSize` resolves to 64 on 64-bit targets).
* The engine's recursion (`reflectValue` → coder → `reflectValue`) is made
  total with an explicit fuel parameter, decremented on every step; every
  claim is proved either for all fuel values or at a concrete sufficient
  fuel.  `Err.outOfFuel` marks exhaustion and occurs in no claim's scenario.
* Go panics that the engine can hit (`reflect.Value.IsNil` on a non-pointer
  inside `valueFromPtr`, `NumField` on a non-struct embedded type) are
  modelled as the error `Err.panicked` / as skipping, with comments at the
  spot; no claim exercises them.
* The per-type coder functions are defunctionalised: the plan stores the
  field's `Ty` (plus the poisoned-tag payload) instead of closures, and
  `encodeValue`/`decodeValue` dispatch exactly as `typeCoders` does.
-/

namespace FormatEngine

/-! ## Types (`reflect.Type`) -/

mutual

/-- Go types, as the engine's kind switch distinguishes them.
`tbytes` is `[]byte`; non-byte slices, maps, arrays, floats, interfaces,
funcs, chans … are `tother` (every kind the engine rejects or that no claim
mentions). -/
inductive Ty : Type where
  | tbool : Ty
  | tint : Ty
  | tuint : Ty
  | tstr : Ty
  | tbytes : Ty
  | tptr (elem : Ty) : Ty
  | tstruct (sname : String) (fields : FieldList) : Ty
  | tother : Ty

/-- One declared field of a struct type: name, exportedness, `Anonymous`
(embedded) flag, the raw tag value under the driver's key (if present), and
the field's type. -/
inductive Field : Type where
  | mk (fname : String) (exported : Bool) (anonymous : Bool)
       (tag : Option String) (fty : Ty) : Field

/-- The declaration-ordered field list of a struct type. -/
inductive FieldList : Type where
  | nil : FieldList
  | cons (f : Field) (rest : FieldList) : FieldList

end

deriving instance DecidableEq for Ty

def Field.fname : Field → String
  | .mk n _ _ _ _ => n

def Field.exported : Field → Bool
  | .mk _ e _ _ _ => e

def Field.anonymous : Field → Bool
  | .mk _ _ a _ _ => a

def Field.tag : Field → Option String
  | .mk _ _ _ t _ => t

def Field.fty : Field → Ty
  | .mk _ _ _ _ t => t

/-! ## Values (`reflect.Value`) -/

mutual

/-- Go runtime values of the kinds in `Ty`.  A nil pointer is `vptrNil`;
`vother` inhabits the unsupported kinds. -/
inductive Value : Type where
  | vbool (b : Bool) : Value
  | vint (n : Int) : Value
  | vuint (n : Nat) : Value
  | vstr (cs : List Char) : Value
  | vbytes (cs : List Char) : Value
  | vptrNil : Value
  | vptr (pointee : Value) : Value
  | vstruct (sname : String) (fields : ValueList) : Value
  | vother : Value

inductive ValueList : Type where
  | nil : ValueList
  | cons (v : Value) (rest : ValueList) : ValueList

end

deriving instance DecidableEq for Value

/-- `v.Field(i)` — positional field access (Go panics out of range; we return
`vother`, which no claim's scenario reaches). -/
def ValueList.get : ValueList → Nat → Value
  | .nil, _ => .vother
  | .cons v _, 0 => v
  | .cons _ rest, n + 1 => rest.get n

/-- Replace field `i` (out-of-range writes are dropped, mirroring that Go
would have panicked earlier on the access). -/
def ValueList.set : ValueList → Nat → Value → ValueList
  | .nil, _, _ => .nil
  | .cons _ rest, 0, w => .cons w rest
  | .cons v rest, n + 1, w => .cons v (rest.set n w)

/-- `v.Type().Name()` for the values the engine reads it from. -/
def Value.tyName : Value → String
  | .vstruct n _ => n
  | _ => ""

def Value.structFieldsOf : Value → ValueList
  | .vstruct _ fl => fl
  | _ => .nil

mutual

/-- The zero value of a type (`reflect.New(t).Elem()`). -/
def zeroValue : Ty → Value
  | .tbool => .vbool false
  | .tint => .vint 0
  | .tuint => .vuint 0
  | .tstr => .vstr []
  | .tbytes => .vbytes []
  | .tptr _ => .vptrNil
  | .tstruct n fds => .vstruct n (zeroFields fds)
  | .tother => .vother
  termination_by structural t => t

/-- Zero values of a struct's fields, in order. -/
def zeroFields : FieldList → ValueList
  | .nil => .nil
  | .cons (.mk _ _ _ _ t) rest => .cons (zeroValue t) (zeroFields rest)
  termination_by structural fl => fl

end

/-! ## Errors

The sentinels of `common.go` plus the wrapping shapes the engine builds with
`fmt.Errorf`.  `exist` is the internal `errExist` sentinel ("the context
error is already fully populated").  `strconv`'s `NumError` wrapper is
elided: `setError` unwraps it once before formatting, so the engine only
ever surfaces the inner `ErrSyntax`/`ErrRange`, which `parseSyntax`/
`parseRange` model directly. -/

inductive Err : Type where
  | exist
  | outOfFuel
  | notSupportType
  | nilInterface
  | panicked
  | pointerToUnexported (tagName : String) (elem : Ty)
  | invalidFormatW (tagName : String)
  | parseSyntax
  | parseRange
  | driver (msg : String)
  | invalidTag (tagName tagValue structName fieldName errMsg : String)
  | wrapped (tagName state structName fieldName : String) (fieldTy : Ty) (inner : Err)

deriving instance DecidableEq for Err

/-- `unwrapErr` (common.go): one `errors.Unwrap` step, identity on
non-wrapping errors. -/
def unwrapErr : Err → Err
  | .wrapped _ _ _ _ _ inner => inner
  | e => e

def Err.isInvalidTag : Err → Bool
  | .invalidTag _ _ _ _ _ => true
  | _ => false

def optIsInvalidTag : Option Err → Bool
  | some e => e.isInvalidTag
  | none => false

/-! ## Byte-level helpers (`bytes`, `strconv`) -/

/-- Go's `asciiSpace` set used by `bytes.TrimSpace`.  (The non-ASCII branch
of `TrimSpace` is irrelevant here: all data in scope is ASCII.) -/
def isSpaceByte (c : Char) : Bool :=
  c = ' ' || c = '\t' || c = '\n' || c = (Char.ofNat 11) || c = (Char.ofNat 12) || c = '\r'

/-- `bytes.TrimSpace`.  Go returns `nil` when everything is trimmed; here
that is the empty list, and the engine's `== nil` test becomes `= []`
(after `TrimSpace` the result is `nil` iff it is empty). -/
def trimSpace (cs : List Char) : List Char :=
  ((cs.dropWhile isSpaceByte).reverse.dropWhile isSpaceByte).reverse

/-- One decimal digit as a character. -/
def digitChar (d : Nat) : Char := Char.ofNat (48 + d)

def charDigit (c : Char) : Option Nat :=
  if 48 ≤ c.toNat ∧ c.toNat ≤ 57 then some (c.toNat - 48) else none

/-- The digit loop of `strconv.formatBits` (base 10): peel the low digit
onto the front of `acc` until one digit remains.  The fuel bound `n + 1`
given by `formatUint` always suffices (the value shrinks by `/ 10` each
step). -/
def formatUintAux : Nat → Nat → List Char → List Char
  | 0, _, acc => acc
  | fuel + 1, n, acc =>
    if n < 10 then digitChar n :: acc
    else formatUintAux fuel (n / 10) (digitChar (n % 10) :: acc)

/-- `strconv.AppendUint(_, n, 10)`: the decimal digits of `n`,
most-significant first (`0` for zero). -/
def formatUint (n : Nat) : List Char :=
  formatUintAux (n + 1) n []

/-- `strconv.AppendInt(_, i, 10)`. -/
def formatInt (i : Int) : List Char :=
  if i < 0 then '-' :: formatUint i.natAbs else formatUint i.toNat

/-- `strconv.AppendBool`. -/
def formatBool (b : Bool) : List Char :=
  if b then ['t', 'r', 'u', 'e'] else ['f', 'a', 'l', 's', 'e']

def parseDigitsAux : Nat → List Char → Option Nat
  | acc, [] => some acc
  | acc, c :: cs =>
    match charDigit c with
    | some d => parseDigitsAux (acc * 10 + d) cs
    | none => none

/-- The digit-run parser inside `strconv.ParseUint` (base 10): fails on an
empty string or a non-digit. -/
def parseDigits : List Char → Option Nat
  | [] => none
  | cs => parseDigitsAux 0 cs

/-- `strconv.ParseUint(s, 10, 64)`, as the decoders use it: returns the
value together with the error slot (Go returns `(0, ErrSyntax)` /
`(maxUint64, ErrRange)`; the decoders `Set` the value regardless). -/
def parseUintGo (cs : List Char) : Nat × Option Err :=
  match parseDigits cs with
  | none => (0, some .parseSyntax)
  | some m => if m ≤ 2 ^ 64 - 1 then (m, none) else (2 ^ 64 - 1, some .parseRange)

/-- `strconv.ParseInt(s, 10, 64)`: optional sign, digit run, 64-bit range
check (clamping on range error, as Go does). -/
def parseIntGo (cs : List Char) : Int × Option Err :=
  let (neg, body) :=
    match cs with
    | '-' :: rest => (true, rest)
    | '+' :: rest => (false, rest)
    | rest => (false, rest)
  match parseDigits body with
  | none => (0, some .parseSyntax)
  | some m =>
    if neg then
      if m ≤ 2 ^ 63 then (-(m : Int), none) else (-(2 ^ 63 : Int), some .parseRange)
    else
      if m ≤ 2 ^ 63 - 1 then ((m : Int), none) else ((2 ^ 63 - 1 : Int), some .parseRange)

/-- `strconv.ParseBool`, with its exact accepted spellings. -/
def parseBoolGo (cs : List Char) : Bool × Option Err :=
  let s := String.mk cs
  if s = "1" || s = "t" || s = "T" || s = "true" || s = "TRUE" || s = "True" then
    (true, none)
  else if s = "0" || s = "f" || s = "F" || s = "false" || s = "FALSE" || s = "False" then
    (false, none)
  else (false, some .parseSyntax)

/-! ## Tag driver and engine (`src/unnamed/part_000`) -/

/-- The tag-driver contract (`Tag[T]`).  `encode` returns the bytes the
driver appends to the output writer; `decode` returns the bytes it writes
to the field-output writer *and* the new contents of the working buffer
(Go drivers mutate `in` in place; the engine re-reads `s.data` afterwards).
`isMarshaller`/`isUnmarshaler` are the per-value capability probes: the
probed closure is modelled by its result. -/
structure Tag (T : Type) where
  name : String
  skip : String → Bool
  parse : String → Except String (Bool × T)
  encode : String → Option T → List Char → Except String (List Char)
  decode : String → Option T → List Char → Except String (List Char × List Char)
  isMarshaller : Value → Option (Except String (List Char))
  isUnmarshaler : Value → Option (List Char → Except String Value)

/-- `Config`.  `marshallerPred t` models
`reflect.PointerTo(t).Implements(cfg.Marshaller)` (and likewise for the
unmarshaler type). -/
structure Config where
  structOpener : List Char
  structCloser : List Char
  unwrapWhenDecoding : Bool
  valueSeparator : List Char
  removeSeparatorWhenDecoding : Bool
  marshallerPred : Ty → Bool
  unmarshalerPred : Ty → Bool

/-- `engine[T]`. -/
structure Engine (T : Type) where
  tag : Tag T
  wrap : Bool
  separate : Bool
  removeSeparator : Bool
  structOpener : List Char
  structCloser : List Char
  valueSeparator : List Char
  marshallerPred : Ty → Bool
  unmarshalerPred : Ty → Bool

/-- `New` (src/unnamed/part_000 lines 80–92), including its exact `wrap`,
`separate` and `removeSeparator` computations. -/
def New {T : Type} (tag : Tag T) (cfg : Config) : Engine T :=
  { tag := tag
    wrap := (!cfg.structOpener.isEmpty || !cfg.structCloser.isEmpty)
              && cfg.unwrapWhenDecoding
    separate := !cfg.valueSeparator.isEmpty
    removeSeparator := !cfg.valueSeparator.isEmpty && cfg.removeSeparatorWhenDecoding
    structOpener := cfg.structOpener
    structCloser := cfg.structCloser
    valueSeparator := cfg.valueSeparator
    marshallerPred := cfg.marshallerPred
    unmarshalerPred := cfg.unmarshalerPred }

/-! ## The field plan (`field[T]` / `structFields[T]`, common.go) -/

mutual

/-- `field[T]` (common.go lines 20–29), defunctionalised: instead of the
`encoder`/`decoder` closures the plan stores the field's type (the coders
are recomputed by dispatch, which is what `typeCoders` produces them from)
and, for a field whose tag failed to parse, the `poison` payload
`(tagValue, errMsg)` captured by `invalidTagEncoder`/`invalidTagDecoder`.
When `Parse` fails, Go leaves `meta` pointing at the partially written `T`;
no engine code reads it on that path, and the model stores `none`. -/
inductive PlanField (T : Type) : Type where
  | mk (index : Nat) (name : String) (ty : Ty) (meta : Option T) (omitEmpty : Bool)
       (poison : Option (String × String)) (embedded : Option (Plan T)) : PlanField T

/-- `structFields[T]`: the ordered field plan. -/
inductive Plan (T : Type) : Type where
  | nil : Plan T
  | cons (f : PlanField T) (rest : Plan T) : Plan T

end

def PlanField.index {T : Type} : PlanField T → Nat
  | .mk i _ _ _ _ _ _ => i

def PlanField.name {T : Type} : PlanField T → String
  | .mk _ n _ _ _ _ _ => n

def PlanField.ty {T : Type} : PlanField T → Ty
  | .mk _ _ t _ _ _ _ => t

def PlanField.meta {T : Type} : PlanField T → Option T
  | .mk _ _ _ m _ _ _ => m

def PlanField.omitEmpty {T : Type} : PlanField T → Bool
  | .mk _ _ _ _ o _ _ => o

def PlanField.poison {T : Type} : PlanField T → Option (String × String)
  | .mk _ _ _ _ _ p _ => p

def PlanField.embedded {T : Type} : PlanField T → Option (Plan T)
  | .mk _ _ _ _ _ _ e => e

/-- The body of `typeFields`' field loop, from field `i` on.  Notes kept
from the source:

* an `Anonymous` field first dereferences one level of pointer; if the
  underlying type is not a struct and the field is unexported it is
  skipped;
* if the underlying type is a struct, its sub-plan is attached — the
  source's `fld.embedded == nil` test never fires, since `typeFields` of a
  struct always returns a (possibly empty) non-nil slice;
* an exported anonymous field of non-struct underlying type would make Go
  panic inside `NumField`; no claim reaches this, modelled as a skip;
* a tag whose `Parse` fails appends the poisoned field and terminates the
  plan (`return append(fields, fld)`). -/
def typeFieldsGo {T : Type} (e : Engine T) : FieldList → Nat → Plan T
  | .nil, _ => .nil
  | .cons (.mk name ex anon tg fty) rest, i =>
    if anon then
      match fty with
      | .tptr (.tstruct sn sfds) =>
        .cons (.mk i name (.tptr (.tstruct sn sfds)) none false none
                  (some (typeFieldsGo e sfds 0)))
              (typeFieldsGo e rest (i + 1))
      | .tstruct sn sfds =>
        .cons (.mk i name (.tstruct sn sfds) none false none
                  (some (typeFieldsGo e sfds 0)))
              (typeFieldsGo e rest (i + 1))
      | _ => typeFieldsGo e rest (i + 1)
    else if !ex then typeFieldsGo e rest (i + 1)
    else
      match tg with
      | some tv =>
        if e.tag.skip tv then typeFieldsGo e rest (i + 1)
        else
          match e.tag.parse tv with
          | .ok (oe, m) =>
            .cons (.mk i name fty (some m) oe none none) (typeFieldsGo e rest (i + 1))
          | .error msg =>
            .cons (.mk i name fty none false (some (tv, msg)) none) .nil
      | none =>
        .cons (.mk i name fty none false none none) (typeFieldsGo e rest (i + 1))
  termination_by structural fl i => fl

/-- `engine.typeFields` (common.go lines 45–103).  Only ever applied to
struct types (`NumField` would panic otherwise); on non-structs it yields
the empty plan. -/
def typeFields {T : Type} (e : Engine T) : Ty → Plan T
  | .tstruct _ fds => typeFieldsGo e fds 0
  | _ => .nil

/-! ## The coder compiler (`typeCoders`, common.go lines 106–161) -/

/-- Defunctionalised encoder choices: which `encoderFunc` `typeCoders`
returns for a type. -/
inductive EncCh : Type where
  | marshallerE | boolE | intE | uintE | strE | bytesE | ptrE | structE | unsupportedE
  deriving DecidableEq

/-- Defunctionalised decoder choices. -/
inductive DecCh : Type where
  | unmarshalerE | boolD | intD | uintD | strD | bytesD | ptrD | structD | unsupportedD
  deriving DecidableEq

/-- The kind switch of `typeCoders`, encoder column.  `tbytes` is the
`reflect.Slice`-of-`Uint8` branch of `sliceCoders`; every kind folded into
`tother` (non-byte slices, maps, arrays, floats, interfaces, …) lands in
the `default` branch. -/
def kindEncoder : Ty → EncCh
  | .tbool => .boolE
  | .tint => .intE
  | .tuint => .uintE
  | .tstr => .strE
  | .tbytes => .bytesE
  | .tptr _ => .ptrE
  | .tstruct _ _ => .structE
  | .tother => .unsupportedE

def kindDecoder : Ty → DecCh
  | .tbool => .boolD
  | .tint => .intD
  | .tuint => .uintD
  | .tstr => .strD
  | .tbytes => .bytesD
  | .tptr _ => .ptrD
  | .tstruct _ _ => .structD
  | .tother => .unsupportedD

/-- `engine.typeCoders`: for non-pointer types probe the marshaller and
unmarshaler capabilities of the pointer-to-type; otherwise (and for the
slots not overridden — `setCoder`) fall through to the kind dispatch.
The source's early `return` when both overrides apply yields the same pair
as the fallthrough, since `setCoder` prefers the override. -/
def typeCoders {T : Type} (e : Engine T) (t : Ty) : EncCh × DecCh :=
  let ef : Option EncCh :=
    match t with
    | .tptr _ => none
    | _ => if e.marshallerPred t then some .marshallerE else none
  let df : Option DecCh :=
    match t with
    | .tptr _ => none
    | _ => if e.unmarshalerPred t then some .unmarshalerE else none
  (ef.getD (kindEncoder t), df.getD (kindDecoder t))

/-- `isEmptyValue` (common.go lines 179–195).  The switch has no
`reflect.Struct` case, so struct values fall through to `return false`. -/
def isEmptyValue : Value → Bool
  | .vstr cs => cs.isEmpty
  | .vbytes cs => cs.isEmpty
  | .vbool b => !b
  | .vint n => n == 0
  | .vuint n => n == 0
  | .vptrNil => true
  | .vptr _ => false
  | .vstruct _ _ => false
  | .vother => false

/-! ## Encode driver (`src/encode.go`, generic half) -/

/-- Kind projections (`v.Bool()`, `v.Int()`, …).  Go panics on a kind
mismatch; the defaults below are never reached on well-typed values, which
is all any claim uses. -/
def Value.asBool : Value → Bool
  | .vbool b => b
  | _ => false

def Value.asInt : Value → Int
  | .vint n => n
  | _ => 0

def Value.asUint : Value → Nat
  | .vuint n => n
  | _ => 0

def Value.asStr : Value → List Char
  | .vstr cs => cs
  | _ => []

def Value.asBytes : Value → List Char
  | .vbytes cs => cs
  | _ => []

def Ty.elemOrSelf : Ty → Ty
  | .tptr u => u
  | t => t

/-- The `context[T]` carried by both scratch states, plus the encode
accumulator (`*bytes.Buffer`).  `fName`/`fTy`/`fMeta` are the parts of
`context.field` the engine reads. -/
structure EncState (T : Type) where
  buf : List Char
  err : Option Err
  structName : String
  fName : String
  fTy : Ty
  fMeta : Option T

/-- A fresh `encodeState` (`newEncodeState`): empty accumulator, nil error,
zero context.  (The zero `reflect.Type` in the context only ever feeds
error formatting; `tother` stands in for it.) -/
def initEncState (T : Type) : EncState T :=
  { buf := [], err := none, structName := "", fName := "", fTy := .tother, fMeta := none }

def marshalError : String := "encode data from"

def unmarshalError : String := "decode data into"

/-- `context.setError` (common.go 203–210): unwrap once, then format with
or without the struct-field context depending on `structName`. -/
def setErrorCtx (tagName state structName fName : String) (fTy : Ty) (err : Err) : Err :=
  let inner := unwrapErr err
  if structName = "" then .wrapped tagName state "" "" fTy inner
  else .wrapped tagName state structName fName fTy inner

/-- The tail of every leaf encoder:
`s.Encode(s.field.name, s.field.meta, bytes, s.Buffer)` — the driver
appends its output to the accumulator, or fails. -/
def tagEncode {T : Type} (e : Engine T) (s : EncState T) (bs : List Char) :
    EncState T × Option Err :=
  match e.tag.encode s.fName s.fMeta bs with
  | .ok app => ({ s with buf := s.buf ++ app }, none)
  | .error m => (s, some (.driver m))

/-- `marshallerEncoder` (encode.go 138–154): probe the addressable copy's
marshaller capability; absent capability is a silent no-op. -/
def marshallerEncoder {T : Type} (e : Engine T) (s : EncState T) (v : Value) :
    EncState T × Option Err :=
  match e.tag.isMarshaller (.vptr v) with
  | none => (s, none)
  | some (.error m) => (s, some (.driver m))
  | some (.ok p) => tagEncode e s p

/-- `valueFromPtr` (encode.go 90–95): dereference, synthesising a zero
value for a nil pointer.  `v.IsNil()` panics when `v` is not a pointer —
the embedded-encode path does call it on plain embedded structs;
`Err.panicked` models that panic escaping. -/
def valueFromPtr (elemTy : Ty) : Value → Except Err Value
  | .vptrNil => .ok (zeroValue elemTy)
  | .vptr x => .ok x
  | _ => .error .panicked

mutual

/-- `encodeState.reflectValue` / the encoder that `cache` resolves for `t`:
dispatch on `typeCoders`' encoder choice.  (The process-wide `sync.Map`
layer is modelled separately for claim C9; per engine it is semantically
transparent.)  The fuel parameter makes the Go recursion total; it
decreases on every call and `Err.outOfFuel` marks exhaustion. -/
def encodeValue {T : Type} :
    Nat → Engine T → EncState T → Ty → Value → EncState T × Option Err
  | 0, _, s, _, _ => (s, some .outOfFuel)
  | fuel + 1, e, s, t, v =>
    match (typeCoders e t).1 with
    | .marshallerE => marshallerEncoder e s v
    | .boolE => tagEncode e s (formatBool v.asBool)
    | .intE => tagEncode e s (formatInt v.asInt)
    | .uintE => tagEncode e s (formatUint v.asUint)
    | .strE => tagEncode e s v.asStr
    | .bytesE => tagEncode e s v.asBytes
    | .ptrE =>
      match valueFromPtr t.elemOrSelf v with
      | .ok w => encodeValue fuel e s t.elemOrSelf w
      | .error er => (s, some er)
    | .structE => encodeFields fuel e (typeFields e t) s v e.wrap
    | .unsupportedE => ({ s with err := some .notSupportType }, some .exist)
  termination_by structural fuel e s t v => fuel

/-- `structFields.encode` (encode.go 97–136): record the struct name,
write the opener when wrapping, run the field loop, write the closer. -/
def encodeFields {T : Type} :
    Nat → Engine T → Plan T → EncState T → Value → Bool → EncState T × Option Err
  | 0, _, _, s, _, _ => (s, some .outOfFuel)
  | fuel + 1, e, plan, s, v, wrap =>
    let s1 := { s with structName := v.tyName }
    let s2 := if wrap then { s1 with buf := s1.buf ++ e.structOpener } else s1
    match encodeLoop fuel e plan s2 v false with
    | (s3, some er) => (s3, some er)
    | (s3, none) =>
      ((if wrap then { s3 with buf := s3.buf ++ e.structCloser } else s3), none)
  termination_by structural fuel e plan s v wrap => fuel

/-- The field loop of `structFields.encode`, threading the `sep` flag:
skip an omit-empty empty field (without separator), write the separator
before every field after the first, recurse into embedded sub-plans with
`valueFromPtr`, record an invalid-tag error but *return nil* for a
poisoned field (`invalidTagEncoder`), and otherwise dispatch the field's
encoder. -/
def encodeLoop {T : Type} :
    Nat → Engine T → Plan T → EncState T → Value → Bool → EncState T × Option Err
  | 0, _, _, s, _, _ => (s, some .outOfFuel)
  | _ + 1, _, .nil, s, _, _ => (s, none)
  | fuel + 1, e, .cons fld rest, s, v, sep =>
    let s1 := { s with fName := fld.name, fTy := fld.ty, fMeta := fld.meta }
    let rv := v.structFieldsOf.get fld.index
    if fld.omitEmpty && isEmptyValue rv then
      encodeLoop fuel e rest s1 v sep
    else
      let s2 := if sep then { s1 with buf := s1.buf ++ e.valueSeparator } else s1
      let sep1 := e.separate
      match fld.embedded with
      | some emb =>
        match valueFromPtr fld.ty.elemOrSelf rv with
        | .error er => (s2, some er)
        | .ok w =>
          match encodeFields fuel e emb s2 w false with
          | (s3, some er) => (s3, some er)
          | (s3, none) => encodeLoop fuel e rest s3 v sep1
      | none =>
        match fld.poison with
        | some (tv, msg) =>
          let s3 := { s2 with
            err := some (.invalidTag e.tag.name tv s2.structName fld.name msg) }
          encodeLoop fuel e rest s3 v sep1
        | none =>
          match encodeValue fuel e s2 fld.ty rv with
          | (s3, some er) => (s3, some er)
          | (s3, none) => encodeLoop fuel e rest s3 v sep1
  termination_by structural fuel e plan s v sep => fuel

end

/-- `engine.Marshal` + `encodeState.marshal` (encode.go 14–51): run the
encoder from a fresh scratch state; when it returns an error, wrap it into
the context via `setError` unless it is the `errExist` sentinel, and reset
the accumulator; finally return the accumulator's bytes and the context
error. -/
def Marshal {T : Type} (fuel : Nat) (e : Engine T) (t : Ty) (v : Value) :
    List Char × Option Err :=
  match encodeValue fuel e (initEncState T) t v with
  | (s, none) => (s.buf, s.err)
  | (s, some .exist) => ([], s.err)
  | (s, some er) =>
    ([], some (setErrorCtx e.tag.name marshalError s.structName s.fName s.fTy er))

/-! ## Decode driver (`src/unnamed/part_002`) -/

/-- The decode scratch state (`decodeState[T]`): the working buffer `data`
(the engine's copy of the caller's input), the `bytes.Buffer` out-writer
`buf` the driver's `Decode` fills, and the shared `context[T]`. -/
structure DecState (T : Type) where
  data : List Char
  buf : List Char
  err : Option Err
  structName : String
  fName : String
  fTy : Ty
  fMeta : Option T

def initDecState (T : Type) (data : List Char) : DecState T :=
  { data := data, buf := [], err := none, structName := "", fName := "",
    fTy := .tother, fMeta := none }

/-- `decodeState.removePrefixBytes` (part_002 lines 91–98): strip a
required byte sequence from the front of the working buffer, or record the
invalid-format error and return `errExist`. -/
def removePrefixBytes {T : Type} (e : Engine T) (s : DecState T) (b : List Char) :
    DecState T × Option Err :=
  if b.isPrefixOf s.data then ({ s with data := s.data.drop b.length }, none)
  else ({ s with err := some (.invalidFormatW e.tag.name) }, some .exist)

/-- `v.Field(i) := w` on a struct value (reflection `Set` through the
field). -/
def setField : Value → Nat → Value → Value
  | .vstruct n fl, i, w => .vstruct n (fl.set i w)
  | v, _, _ => v

/-- `unmarshalerDecoder` (part_002 163–177): probe the capability on a
pointer to a fresh zero value; absent capability is a silent no-op; the
closure consumes the extracted bytes and fills the fresh value, which then
replaces the target. -/
def unmarshalerDecoder {T : Type} (e : Engine T) (s : DecState T) (t : Ty) (v : Value) :
    DecState T × Value × Option Err :=
  match e.tag.isUnmarshaler (.vptr (zeroValue t)) with
  | none => (s, v, none)
  | some f =>
    match f s.buf with
    | .error m => (s, v, some (.driver m))
    | .ok w => (s, w, none)

mutual

/-- `decodeState.reflectValue` / the decoder `cache` resolves for `t`:
dispatch on `typeCoders`' decoder choice.  The leaf decoders parse the
bytes the driver wrote into `s.buf` (`s.String()` / `s.Bytes()`); note
they `Set` the parsed value even when the parse failed, exactly as
`boolDecoder` etc. do. -/
def decodeValue {T : Type} :
    Nat → Engine T → DecState T → Ty → Value → DecState T × Value × Option Err
  | 0, _, s, _, v => (s, v, some .outOfFuel)
  | fuel + 1, e, s, t, v =>
    match (typeCoders e t).2 with
    | .unmarshalerE => unmarshalerDecoder e s t v
    | .boolD => let (r, er) := parseBoolGo s.buf; (s, .vbool r, er)
    | .intD => let (r, er) := parseIntGo s.buf; (s, .vint r, er)
    | .uintD => let (r, er) := parseUintGo s.buf; (s, .vuint r, er)
    | .strD => (s, .vstr s.buf, none)
    | .bytesD => (s, .vbytes s.buf, none)
    | .ptrD =>
      -- pointerDecoder (part_002 211–223)
      match v with
      | .vptrNil =>
        match decodeValue fuel e s t.elemOrSelf (zeroValue t.elemOrSelf) with
        | (s1, _, some er) => (s1, .vptrNil, some er)
        | (s1, rv, none) =>
          (s1, if isEmptyValue rv then .vptrNil else .vptr rv, none)
      | .vptr x =>
        -- non-nil: decode in place through the pointer (mutations persist
        -- even when the decode errors)
        match decodeValue fuel e s t.elemOrSelf x with
        | (s1, x1, er) => (s1, .vptr x1, er)
      | w => (s, w, some .panicked) -- `IsNil` on a non-pointer panics
    | .structD => decodeFields fuel e (typeFields e t) s v e.wrap
    | .unsupportedD => ({ s with err := some .notSupportType }, v, some .exist)
  termination_by structural fuel e s t v => fuel

/-- `structFields.decode` (part_002 100–161): record the struct name,
strip the opener when unwrapping, run the field loop, then strip the
closer (also after a `break`). -/
def decodeFields {T : Type} :
    Nat → Engine T → Plan T → DecState T → Value → Bool → DecState T × Value × Option Err
  | 0, _, _, s, v, _ => (s, v, some .outOfFuel)
  | fuel + 1, e, plan, s, v, unwrap =>
    let s1 := { s with structName := v.tyName }
    match (if unwrap then removePrefixBytes e s1 e.structOpener else (s1, none)) with
    | (s2, some er) => (s2, v, some er)
    | (s2, none) =>
      match decodeLoop fuel e plan s2 v unwrap false with
      | (s3, v3, some er) => (s3, v3, some er)
      | (s3, v3, none) =>
        match (if unwrap then removePrefixBytes e s3 e.structCloser else (s3, none)) with
        | (s4, some er) => (s4, v3, some er)
        | (s4, none) => (s4, v3, none)
  termination_by structural fuel e plan s v unwrap => fuel

/-- The field loop of `structFields.decode`, threading the `sep` flag:
each iteration trims the working buffer and *breaks* when it is empty or
(when unwrapping) starts with the closer; strips the separator before
every field after the first; resets the out-buffer; recurses into embedded
sub-plans (failing on a nil embedded pointer); otherwise lets the driver's
`Decode` extract the field's bytes (and rewrite the working buffer),
treats zero extracted bytes as an absent field, and dispatches the field's
decoder (the poisoned `invalidTagDecoder` for a field whose tag failed to
parse). -/
def decodeLoop {T : Type} :
    Nat → Engine T → Plan T → DecState T → Value → Bool → Bool →
      DecState T × Value × Option Err
  | 0, _, _, s, v, _, _ => (s, v, some .outOfFuel)
  | _ + 1, _, .nil, s, v, _, _ => (s, v, none)
  | fuel + 1, e, .cons fld rest, s, v, unwrap, sep =>
    let s1 := { s with fName := fld.name, fTy := fld.ty, fMeta := fld.meta,
                       data := trimSpace s.data }
    if s1.data = [] ∨ (unwrap ∧ e.structCloser.isPrefixOf s1.data) then
      (s1, v, none)
    else
      match (if sep then removePrefixBytes e s1 e.valueSeparator else (s1, none)) with
      | (s2, some er) => (s2, v, some er)
      | (s2, none) =>
        let sep1 := e.removeSeparator
        let s3 := { s2 with buf := [] }
        let rv := v.structFieldsOf.get fld.index
        match fld.embedded with
        | some emb =>
          match rv with
          | .vptrNil =>
            ({ s3 with
                err := some (.pointerToUnexported e.tag.name fld.ty.elemOrSelf) },
             v, some .exist)
          | .vptr x =>
            match decodeFields fuel e emb s3 x false with
            | (s4, x1, some er) => (s4, setField v fld.index (.vptr x1), some er)
            | (s4, x1, none) =>
              decodeLoop fuel e rest s4 (setField v fld.index (.vptr x1)) unwrap sep1
          | w =>
            match decodeFields fuel e emb s3 w false with
            | (s4, w1, some er) => (s4, setField v fld.index w1, some er)
            | (s4, w1, none) =>
              decodeLoop fuel e rest s4 (setField v fld.index w1) unwrap sep1
        | none =>
          match e.tag.decode fld.name fld.meta s3.data with
          | .error m => (s3, v, some (.driver m))
          | .ok (out, newData) =>
            let s4 := { s3 with buf := s3.buf ++ out, data := newData }
            if s4.buf.length = 0 then decodeLoop fuel e rest s4 v unwrap sep1
            else
              match fld.poison with
              | some (tv, msg) =>
                ({ s4 with
                    err := some (.invalidTag e.tag.name tv s4.structName fld.name msg) },
                 v, some .exist)
              | none =>
                match decodeValue fuel e s4 fld.ty rv with
                | (s5, rv1, some er) => (s5, setField v fld.index rv1, some er)
                | (s5, rv1, none) =>
                  decodeLoop fuel e rest s5 (setField v fld.index rv1) unwrap sep1
  termination_by structural fuel e plan s v unwrap sep => fuel

end

/-- `engine.Unmarshal` + `decodeState.unmarshal` (part_002 16–52): copy the
input into the working buffer (the copy itself is invisible in this pure
model; the memory-level model for claim C8 makes it explicit), run the
decoder on the pointer value, wrap a returned non-`errExist` error via
`setError`, and return the context error together with the decoded target. -/
def Unmarshal {T : Type} (fuel : Nat) (e : Engine T) (t : Ty) (data : List Char)
    (v : Value) : Option Err × Value :=
  match decodeValue fuel e (initDecState T data) (.tptr t) (.vptr v) with
  | (s1, v1, r) =>
    let errFinal :=
      match r with
      | none => s1.err
      | some .exist => s1.err
      | some er =>
        some (setErrorCtx e.tag.name unmarshalError s1.structName s1.fName s1.fTy er)
    (errFinal, match v1 with | .vptr x => x | _ => v)

/-! ## Shared fixtures for the claims

An identity round-trip tag driver (`Encode`/`Decode` pass bytes through
unchanged and do not consume the working buffer), and small concrete
engines and record types.  The driver's meta type `T` is instantiated to
`String` throughout. -/

def identityTag : Tag String :=
  { name := "id"
    skip := fun _ => false
    parse := fun _ => .ok (false, "")
    encode := fun _ _ bs => .ok bs
    decode := fun _ _ data => .ok (data, data)
    isMarshaller := fun _ => none
    isUnmarshaler := fun _ => none }

/-- Unframed, unseparated configuration. -/
def plainCfg : Config :=
  { structOpener := [], structCloser := [], unwrapWhenDecoding := false,
    valueSeparator := [], removeSeparatorWhenDecoding := false,
    marshallerPred := fun _ => false, unmarshalerPred := fun _ => false }

def ePlain : Engine String := New identityTag plainCfg

/-- Braces configured but `UnwrapWhenDecoding` left false (claim C2). -/
def eBracesNoUnwrap : Engine String :=
  New identityTag { plainCfg with structOpener := ['{'], structCloser := ['}'] }

/-- Braces with `UnwrapWhenDecoding` set. -/
def eBracesUnwrap : Engine String :=
  New identityTag
    { plainCfg with structOpener := ['{'], structCloser := ['}'],
                    unwrapWhenDecoding := true }

/-- `type S1 struct { A int }` with no tags. -/
def tS1 : Ty := .tstruct "S1" (.cons (.mk "A" true false none .tint) .nil)

def vS1 (n : Int) : Value := .vstruct "S1" (.cons (.vint n) .nil)

/-- `type S2 struct { A, B int }` with no tags. -/
def tS2 : Ty :=
  .tstruct "S2" (.cons (.mk "A" true false none .tint)
                 (.cons (.mk "B" true false none .tint) .nil))

def vS2 (a b : Int) : Value :=
  .vstruct "S2" (.cons (.vint a) (.cons (.vint b) .nil))

/-! ## Claim C9 — process-wide caches keyed by the type alone

The three `sync.Map`s (`fieldCache`, `encoderCache`, `decoderCache`) are
package-level variables keyed by `reflect.Type`; the engine instance is
not part of the key even though the cached entry is computed with that
instance's `Name`/`Skip`/`Parse` (for plans) or capability predicates (for
coders).  Sequentially, `Load` + `LoadOrStore` is load-or-insert on an
association list. -/

def cacheLoadPlan {T : Type} (c : List (Ty × Plan T)) (t : Ty) : Option (Plan T) :=
  match c.find? (fun p => p.1 == t) with
  | some p => some p.2
  | none => none

/-- `engine.cachedFields` (common.go 36–42): `Load`, else compute
`typeFields` with *this* engine and publish it (`LoadOrStore`); returns
the published entry together with the cache. -/
def cachedFields {T : Type} (e : Engine T) (c : List (Ty × Plan T)) (t : Ty) :
    Plan T × List (Ty × Plan T) :=
  match cacheLoadPlan c t with
  | some p => (p, c)
  | none => (typeFields e t, c ++ [(t, typeFields e t)])

/-- `encodeState.cache` (encode.go 62–88) with the coder defunctionalised
to its `typeCoders` choice.  The recursive-type stub published before
compilation waits for and then calls the real coder, so it is
observationally the real coder; sequentially the whole protocol is
load-or-insert of `typeCoders(t)`. -/
def cachedEncoder {T : Type} (e : Engine T) (c : List (Ty × EncCh)) (t : Ty) :
    EncCh × List (Ty × EncCh) :=
  match c.find? (fun p => p.1 == t) with
  | some p => (p.2, c)
  | none => ((typeCoders e t).1, c ++ [(t, (typeCoders e t).1)])

/-- `decodeState.cache` (part_002 63–89), same shape. -/
def cachedDecoder {T : Type} (e : Engine T) (c : List (Ty × DecCh)) (t : Ty) :
    DecCh × List (Ty × DecCh) :=
  match c.find? (fun p => p.1 == t) with
  | some p => (p.2, c)
  | none => ((typeCoders e t).2, c ++ [(t, (typeCoders e t).2)])

/-- An engine whose driver's `Skip` rejects every tagged field — its plans
differ from `ePlain`'s. -/
def eSkipAll : Engine String :=
  New { identityTag with skip := fun _ => true } plainCfg

/-- `type P struct { A int `x` }`: one exported field carrying a tag. -/
def tTagged : Ty := .tstruct "P" (.cons (.mk "A" true false (some "x") .tint) .nil)

/-! ## Claim C8 — `Unmarshal` never mutates the caller's input slice

The pure pipeline cannot express in-place mutation, so the buffer handling
of `Unmarshal` (part_002 lines 20–21: `s.data = make([]byte, len(data));
copy(s.data, data)`) is modelled at the memory level: a heap of byte
buffers with slices as indices.  The tag driver's `Decode` may rewrite the
*working* buffer arbitrarily (README: "You can change the input data …،
however this will not affect the original data, since you are working with
a copy"), one rewrite per field visited; the engine's own
`TrimSpace`/`removePrefixBytes` reslicing likewise only ever reassigns
`s.data`.  Every write in the decode path therefore lands on the working
buffer, and the claim is that the caller's buffer reads back unchanged. -/

/-- A heap of byte buffers; a Go slice is an index into it. -/
structure Mem where
  bufs : List (List Char)

def Mem.read (m : Mem) (r : Nat) : List Char := m.bufs.getD r []

def Mem.write (m : Mem) (r : Nat) (cs : List Char) : Mem := ⟨m.bufs.set r cs⟩

/-- `make([]byte, len(data))` + `copy`: allocate a fresh buffer holding a
copy of the given bytes; returns the new heap and the fresh reference. -/
def Mem.alloc (m : Mem) (cs : List Char) : Mem × Nat :=
  (⟨m.bufs ++ [cs]⟩, m.bufs.length)

/-- The decode run's writes to the working buffer — each visited field's
driver `Decode` plus the engine's own trimming and prefix-stripping,
abstracted as arbitrary rewrites of the working buffer's contents, applied
in order. -/
def runDecodeWrites (work : Nat) : List (List Char → List Char) → Mem → Mem
  | [], m => m
  | f :: rest, m => runDecodeWrites work rest (m.write work (f (m.read work)))

/-- `engine.Unmarshal`'s buffer handling (part_002 16–25): copy the
caller's buffer into a fresh working buffer, then run the decode — which
writes only through the working reference. -/
def unmarshalMem (muts : List (List Char → List Char)) (m : Mem) (dataRef : Nat) :
    Mem :=
  let p := m.alloc (m.read dataRef)
  runDecodeWrites p.2 muts p.1

/-- An engine whose driver's `Parse` rejects the tag value `bad`. -/
def eBadParse : Engine String :=
  New { identityTag with
          parse := fun tv => if tv = "bad" then .error "boom" else .ok (false, tv) }
    plainCfg

/-- `type S3 struct { A int; B int `bad` }`: the second field's tag fails
to parse, so its plan entry is poisoned. -/
def tS3 : Ty :=
  .tstruct "S3" (.cons (.mk "A" true false none .tint)
                 (.cons (.mk "B" true false (some "bad") .tint) .nil))

/-! ## Claim C4 — which fields the plan visits

`typeFields` skips unexported non-embedded fields *before* looking at the
tag, so an unexported field carrying a non-skip annotation is not visited
even though the claim's clause (b) says it is; the amended statement adds
the exportedness requirement (and restricts to plans without embedded
fields and with parseable annotations, where the claim's "exactly" can
hold at all). -/

/-- The field indices a plan visits, in order. -/
def planIndexes {T : Type} : Plan T → List Nat
  | .nil => []
  | .cons f rest => f.index :: planIndexes rest

/-- Modelled from the claim's words: a field is visited iff it "(a) is
exported and carries no annotation under the driver's name key, or (b)
carries an annotation for which the driver's Skip returns false". -/
def c4ClaimVisits {T : Type} (e : Engine T) (fd : Field) : Bool :=
  (fd.exported && fd.tag == none)
  || (match fd.tag with
      | some tv => !e.tag.skip tv
      | none => false)

def c4ClaimIndexes {T : Type} (e : Engine T) : FieldList → Nat → List Nat
  | .nil, _ => []
  | .cons fd rest, i =>
    if c4ClaimVisits e fd then i :: c4ClaimIndexes e rest (i + 1)
    else c4ClaimIndexes e rest (i + 1)

/-- The amended predicate: visited iff exported *and* (no annotation or
an annotation whose `Skip` is false). -/
def amendedVisits {T : Type} (e : Engine T) (fd : Field) : Bool :=
  fd.exported
    && (match fd.tag with
        | some tv => !e.tag.skip tv
        | none => true)

def amendedIndexes {T : Type} (e : Engine T) : FieldList → Nat → List Nat
  | .nil, _ => []
  | .cons fd rest, i =>
    if amendedVisits e fd then i :: amendedIndexes e rest (i + 1)
    else amendedIndexes e rest (i + 1)

/-- No field of the list is embedded (`Anonymous`). -/
def noAnon : FieldList → Bool
  | .nil => true
  | .cons fd rest => !fd.anonymous && noAnon rest

def parseOk {T : Type} : Except String (Bool × T) → Bool
  | .ok _ => true
  | .error _ => false

/-- Every annotation that the introspector would parse (present and not
skipped) parses successfully. -/
def tagsParse {T : Type} (e : Engine T) : FieldList → Bool
  | .nil => true
  | .cons fd rest =>
    (match fd.tag with
     | some tv => e.tag.skip tv || parseOk (e.tag.parse tv)
     | none => true) && tagsParse e rest

/-- `type U struct { a int `x` }`: an unexported field carrying a
non-skip annotation. -/
def tUnexpTagged : Ty :=
  .tstruct "U" (.cons (.mk "a" false false (some "x") .tint) .nil)

/-! ## Claim C10 — struct values are never "empty" -/

/-- **C10.** `isEmptyValue` returns `false` on every value of struct kind
(its switch has no struct case), and consequently the encode loop treats a
field marked omit-empty whose value is a record exactly as if the flag
were clear: the field is always encoded. -/
theorem c10_omitEmpty_struct_always_encoded
    (fuel : Nat) (e : Engine String) (rest : Plan String)
    (s : EncState String) (v : Value) (sep : Bool)
    (i : Nat) (nm : String) (t : Ty) (m : Option String)
    (sn : String) (fl : ValueList)
    (h : v.structFieldsOf.get i = .vstruct sn fl) :
    (∀ sn' fl', isEmptyValue (.vstruct sn' fl') = false)
    ∧ encodeLoop fuel e (.cons (.mk i nm t m true none none) rest) s v sep
      = encodeLoop fuel e (.cons (.mk i nm t m false none none) rest) s v sep := by
  refine ⟨fun _ _ => rfl, ?_⟩
  cases fuel with
  | zero => rfl
  | succ n =>
    simp only [encodeLoop, PlanField.omitEmpty, PlanField.name, PlanField.ty,
      PlanField.meta, PlanField.index, PlanField.embedded, PlanField.poison, h,
      isEmptyValue, Bool.and_false, Bool.false_and, Bool.and_self]

/-- Witness for C10 at a concrete input: a one-field record whose single
field is an omit-empty record holding only zero values is still encoded
(identically to the non-omit-empty plan). -/
theorem c10_omitEmpty_struct_always_encoded_witness :
    (∀ sn' fl', isEmptyValue (.vstruct sn' fl') = false)
    ∧ encodeLoop 5 ePlain
        (.cons (.mk 0 "A" tS1 none true none none) .nil)
        (initEncState String) (.vstruct "Outer" (.cons (vS1 0) .nil)) false
      = encodeLoop 5 ePlain
        (.cons (.mk 0 "A" tS1 none false none none) .nil)
        (initEncState String) (.vstruct "Outer" (.cons (vS1 0) .nil)) false :=
  c10_omitEmpty_struct_always_encoded 5 ePlain .nil (initEncState String)
    (.vstruct "Outer" (.cons (vS1 0) .nil)) false 0 "A" tS1 none "S1"
    (.cons (.vint 0) .nil) rfl

/-! ## Claim C2 — frame bytes on encode

The claim (and the `Config` doc comments: "Will be automatically added
when encoding") say the configured non-empty `StructOpener`/`StructCloser`
are written around every record on encode.  `New` computes
`wrap := (opener or closer non-empty) && cfg.UnwrapWhenDecoding`, so with
`UnwrapWhenDecoding == false` the encoder writes no framing at all even
though the opener and closer are non-empty — the code contradicts its own
documentation (code bug).  With `UnwrapWhenDecoding == true` the framing
is written as claimed. -/

/-- **C2.** Failing input, evaluated on the model: an engine constructed
by `New` with `StructOpener="{"`, `StructCloser="}"` and
`UnwrapWhenDecoding=false` has `wrap = false` and `Marshal` of the record
`S1{A: 1}` yields bare `1` — the non-empty frame bytes are *not* written.
The same record under the same braces with `UnwrapWhenDecoding=true`
yields `{1}`. -/
theorem c2_encode_framing_dropped :
    eBracesNoUnwrap.structOpener = ['{']
    ∧ eBracesNoUnwrap.structCloser = ['}']
    ∧ eBracesNoUnwrap.wrap = false
    ∧ Marshal 10 eBracesNoUnwrap tS1 (vS1 1) = (['1'], none)
    ∧ Marshal 10 eBracesUnwrap tS1 (vS1 1) = (['{', '1', '}'], none) := by
  refine ⟨rfl, rfl, rfl, ?_, ?_⟩ <;> rfl

/-! ## Claim C5 — pointer fields on decode -/

/-- **C5.** `pointerDecoder` on a nil pointer: allocate a fresh zero value
of the pointee type, recurse into it, and keep the allocation only when
the decoded value is non-empty (`isEmptyValue`), leaving the pointer nil
otherwise; errors discard the allocation too.  Concretely: decoding the
extracted payload `0` into a nil `*int` leaves the pointer nil (the
decoded value is empty), while payload `7` sets it to a fresh `7`. -/
theorem c5_pointer_decoder_alloc_discard :
    (∀ (fuel : Nat) (e : Engine String) (s : DecState String) (t : Ty),
      decodeValue (fuel + 1) e s (.tptr t) .vptrNil
        = (match decodeValue fuel e s t (zeroValue t) with
           | (s1, _, some er) => (s1, .vptrNil, some er)
           | (s1, rv, none) =>
             (s1, if isEmptyValue rv then Value.vptrNil else .vptr rv, none)))
    ∧ (decodeValue 5 ePlain { initDecState String [] with buf := ['0'] }
         (.tptr .tint) .vptrNil).2.1 = .vptrNil
    ∧ (decodeValue 5 ePlain { initDecState String [] with buf := ['7'] }
         (.tptr .tint) .vptrNil).2.1 = .vptr (.vint 7) := by
  refine ⟨fun fuel e s t => ?_, rfl, rfl⟩
  rw [decodeValue]
  simp only [typeCoders, kindDecoder, Option.getD, Ty.elemOrSelf]
  rcases h : decodeValue fuel e s t (zeroValue t) with ⟨s1, rv, r⟩
  cases r <;> rfl

/-- **C9.** The caches are keyed by the type alone: for any two engines,
whichever one first introspects (or compiles) `t` publishes the entry the
later call on *either* engine receives — `typeFields e1 t` (resp.
`typeCoders e1 t`), not `e2`'s.  Concretely, `eSkipAll` and `ePlain`
disagree on `tTagged`'s plan, yet after `eSkipAll` warms the cache,
`ePlain` receives `eSkipAll`'s (empty) plan. -/
theorem c9_caches_keyed_by_type_only :
    (∀ (e1 e2 : Engine String) (t : Ty),
      (cachedFields e2 (cachedFields e1 [] t).2 t).1 = typeFields e1 t
      ∧ (cachedEncoder e2 (cachedEncoder e1 [] t).2 t).1 = (typeCoders e1 t).1
      ∧ (cachedDecoder e2 (cachedDecoder e1 [] t).2 t).1 = (typeCoders e1 t).2)
    ∧ typeFields eSkipAll tTagged ≠ typeFields ePlain tTagged
    ∧ (cachedFields ePlain (cachedFields eSkipAll [] tTagged).2 tTagged).1
        = typeFields eSkipAll tTagged := by
  refine ⟨fun e1 e2 t => ⟨?_, ?_, ?_⟩, ?_, rfl⟩
  · simp [cachedFields, cacheLoadPlan, List.find?]
  · simp [cachedEncoder, List.find?]
  · simp [cachedDecoder, List.find?]
  · intro h
    have h1 : (Plan.nil : Plan String)
        = .cons (.mk 0 "A" .tint (some "") false none none) .nil := by
      calc (Plan.nil : Plan String) = typeFields eSkipAll tTagged := rfl
        _ = typeFields ePlain tTagged := h
        _ = .cons (.mk 0 "A" .tint (some "") false none none) .nil := rfl
    exact Plan.noConfusion h1

/-! ## Claims C6 and C7 — exhausted buffers and required framing -/

/-- Shared helper: the decode loop's first action on a non-empty residual
plan is to trim the working buffer and *break* when it came up empty,
leaving the target value untouched and reporting no error. -/
theorem decodeLoop_exhausted {T : Type} (fuel : Nat) (e : Engine T)
    (fld : PlanField T) (rest : Plan T) (s : DecState T) (v : Value)
    (unwrap sep : Bool) (h : trimSpace s.data = []) :
    decodeLoop (fuel + 1) e (.cons fld rest) s v unwrap sep
      = ({ s with fName := fld.name, fTy := fld.ty, fMeta := fld.meta, data := [] },
         v, none) := by
  rw [decodeLoop]
  simp only [h, true_or, if_true]

/-- Shared helper: with `unwrap = false`, `structFields.decode` on a
buffer that trims to empty succeeds and leaves the target untouched. -/
theorem decodeFields_exhausted_noUnwrap {T : Type} (fuel : Nat) (e : Engine T)
    (plan : Plan T) (s : DecState T) (v : Value) (h : trimSpace s.data = []) :
    (decodeFields (fuel + 2) e plan s v false).2 = (v, none) := by
  rw [decodeFields]
  cases plan with
  | nil => rfl
  | cons fld rest =>
    have hl := decodeLoop_exhausted fuel e fld rest
      { s with structName := v.tyName } v false false h
    simp only [Bool.false_eq_true, if_false, hl]

/-- **C6 (amended).** When the working buffer is exhausted (empty after
trimming) before the remaining fields of the plan are consumed, the loop
stops, the remaining fields keep their current (zero) values, and —
provided the engine does not unwrap frames on decode — the record decode
returns success.  (With unwrapping, the closer is still required after the
break; see the counterexample.) -/
theorem c6_exhausted_buffer_keeps_zero_values :
    (∀ {T : Type} (fuel : Nat) (e : Engine T) (fld : PlanField T) (rest : Plan T)
       (s : DecState T) (v : Value) (unwrap sep : Bool),
       trimSpace s.data = [] →
       (decodeLoop (fuel + 1) e (.cons fld rest) s v unwrap sep).2 = (v, none))
    ∧ (∀ {T : Type} (fuel : Nat) (e : Engine T) (plan : Plan T) (s : DecState T)
       (v : Value),
       trimSpace s.data = [] →
       (decodeFields (fuel + 2) e plan s v false).2 = (v, none)) := by
  constructor
  · intro T fuel e fld rest s v unwrap sep h
    rw [decodeLoop_exhausted fuel e fld rest s v unwrap sep h]
  · intro T fuel e plan s v h
    exact decodeFields_exhausted_noUnwrap fuel e plan s v h

/-- Witness for C6: decoding the empty buffer into a fresh two-int-field
record with the non-wrapping engine succeeds and leaves both fields zero. -/
theorem c6_exhausted_buffer_keeps_zero_values_witness :
    (decodeLoop 4 ePlain (typeFields ePlain tS2) (initDecState String [])
        (zeroValue tS2) false false).2 = (zeroValue tS2, none)
    ∧ (decodeFields 5 ePlain (typeFields ePlain tS2) (initDecState String [])
        (zeroValue tS2) false).2 = (zeroValue tS2, none) :=
  ⟨c6_exhausted_buffer_keeps_zero_values.1 3 ePlain
      (.mk 0 "A" .tint none false none none)
      (.cons (.mk 1 "B" .tint none false none none) .nil)
      (initDecState String []) (zeroValue tS2) false false rfl,
   c6_exhausted_buffer_keeps_zero_values.2 3 ePlain (typeFields ePlain tS2)
      (initDecState String []) (zeroValue tS2) rfl⟩

/-- **C6 counterexample.** With a wrapping engine (`{`/`}` and
`UnwrapWhenDecoding`), input `{` exhausts the buffer before the record's
single field, and `Unmarshal` returns the invalid-format error — not
success as the claim states. -/
theorem c6_counterexample_wrap_exhausted_errors :
    (Unmarshal 10 eBracesUnwrap tS1 ['{'] (zeroValue tS1)).1
      = some (.invalidFormatW "id") := by rfl

/-! ## Claim C7 — missing framing on decode is an invalid-format error -/

theorem isPrefixOf_append_self (l r : List Char) : l.isPrefixOf (l ++ r) = true := by
  induction l with
  | nil => simp [List.isPrefixOf]
  | cons c cs ih => simp [List.isPrefixOf, ih]

theorem isPrefixOf_nil_of_ne {l : List Char} (h : l ≠ []) :
    l.isPrefixOf ([] : List Char) = false := by
  cases l with
  | nil => exact absurd rfl h
  | cons a as => simp [List.isPrefixOf]

theorem decodeLoop_nil {T : Type} (fuel : Nat) (e : Engine T) (s : DecState T)
    (v : Value) (unwrap sep : Bool) :
    decodeLoop (fuel + 1) e .nil s v unwrap sep = (s, v, none) := rfl

/-- Shared helper: unwrapping `structFields.decode` on a buffer that does
not begin with the opener records the invalid-format error and returns
`errExist`. -/
theorem decodeFields_missing_opener {T : Type} (fuel : Nat) (e : Engine T)
    (plan : Plan T) (s : DecState T) (v : Value)
    (hp : e.structOpener.isPrefixOf s.data = false) :
    decodeFields (fuel + 1) e plan s v true
      = ({ s with structName := v.tyName, err := some (.invalidFormatW e.tag.name) },
         v, some .exist) := by
  rw [decodeFields]
  simp only [if_true, removePrefixBytes, hp, Bool.false_eq_true, if_false]

/-- Shared helper: unwrapping `structFields.decode` when the buffer after
the opener trims to empty without the closer appearing: the closer check
after the loop's break records the invalid-format error. -/
theorem decodeFields_missing_closer {T : Type} (fuel : Nat) (e : Engine T)
    (plan : Plan T) (s : DecState T) (v : Value) (rest : List Char)
    (hdata : s.data = e.structOpener ++ rest)
    (htrim : trimSpace rest = [])
    (hcl : e.structCloser.isPrefixOf rest = false) :
    (decodeFields (fuel + 2) e plan s v true).1.err
      = some (.invalidFormatW e.tag.name)
    ∧ (decodeFields (fuel + 2) e plan s v true).2.2 = some .exist := by
  have hclne : e.structCloser ≠ [] := by
    intro hnil
    rw [hnil] at hcl
    simp [List.isPrefixOf] at hcl
  rw [decodeFields]
  simp only [if_true, removePrefixBytes, hdata, isPrefixOf_append_self, if_true,
    List.drop_left]
  cases plan with
  | nil =>
    rw [decodeLoop_nil]
    simp [removePrefixBytes, hcl]
  | cons fld rrest =>
    rw [decodeLoop_exhausted fuel e fld rrest _ v true false htrim]
    simp [removePrefixBytes, isPrefixOf_nil_of_ne hclne]

/-- **C7.** With a wrap-configured engine (and no unmarshaler override for
the record type), `Unmarshal` fails with the invalid-format error when
(a) the input does not begin with the frame opener, or (b) the frame
closer is missing where required: after the opener the buffer runs out
(trims to empty) without the closer appearing. -/
theorem c7_wrap_missing_frame_invalid_format :
    (∀ (fuel : Nat) (e : Engine String) (sn : String) (fds : FieldList)
       (data : List Char) (v : Value),
       e.wrap = true →
       e.unmarshalerPred (.tstruct sn fds) = false →
       e.structOpener.isPrefixOf data = false →
       (Unmarshal (fuel + 4) e (.tstruct sn fds) data v).1
         = some (.invalidFormatW e.tag.name))
    ∧ (∀ (fuel : Nat) (e : Engine String) (sn : String) (fds : FieldList)
       (rest : List Char) (v : Value),
       e.wrap = true →
       e.unmarshalerPred (.tstruct sn fds) = false →
       trimSpace rest = [] →
       e.structCloser.isPrefixOf rest = false →
       (Unmarshal (fuel + 4) e (.tstruct sn fds) (e.structOpener ++ rest) v).1
         = some (.invalidFormatW e.tag.name)) := by
  have hstruct : ∀ (n : Nat) (e : Engine String) (sn : String) (fds : FieldList)
      (s : DecState String) (v : Value),
      e.unmarshalerPred (.tstruct sn fds) = false →
      decodeValue (n + 1) e s (.tstruct sn fds) v
        = decodeFields n e (typeFields e (.tstruct sn fds)) s v e.wrap := by
    intro n e sn fds s v hu
    have hd : (typeCoders e (.tstruct sn fds)).2 = .structD := by
      simp [typeCoders, hu, kindDecoder]
    cases v <;> (rw [decodeValue, hd]) <;> nofun
  have hptr : ∀ (n : Nat) (e : Engine String) (t : Ty) (s : DecState String) (v : Value),
      decodeValue (n + 1) e s (.tptr t) (.vptr v)
        = (match decodeValue n e s t v with
           | (s1, x1, er) => (s1, Value.vptr x1, er)) := by
    intro n e t s v
    rw [decodeValue]
    simp only [typeCoders, kindDecoder, Option.getD, Ty.elemOrSelf]
  constructor
  · intro fuel e sn fds data v hw hu hp
    unfold Unmarshal
    rw [hptr, hstruct _ _ _ _ _ _ hu, hw,
      decodeFields_missing_opener (fuel + 1) e _ _ v hp]
  · intro fuel e sn fds rest v hw hu htrim hcl
    unfold Unmarshal
    rw [hptr, hstruct _ _ _ _ _ _ hu, hw]
    rcases hres : decodeFields (fuel + 2) e (typeFields e (.tstruct sn fds))
        (initDecState String (e.structOpener ++ rest)) v true with ⟨s1, v1, r⟩
    have hmc := decodeFields_missing_closer fuel e
      (typeFields e (.tstruct sn fds))
      (initDecState String (e.structOpener ++ rest)) v rest rfl htrim hcl
    rw [hres] at hmc
    obtain ⟨herr, hr⟩ := hmc
    simp only at herr hr
    rw [hr]
    exact herr

/-- Witness for C7: with the braces engine, input `1}` (no opener) and
input `{` (opener but the buffer ends with no closer) both fail with the
invalid-format error. -/
theorem c7_wrap_missing_frame_invalid_format_witness :
    (Unmarshal 10 eBracesUnwrap tS1 ['1', '}'] (zeroValue tS1)).1
      = some (.invalidFormatW "id")
    ∧ (Unmarshal 10 eBracesUnwrap tS1 (eBracesUnwrap.structOpener ++ [])
        (zeroValue tS1)).1 = some (.invalidFormatW "id") :=
  ⟨c7_wrap_missing_frame_invalid_format.1 6 eBracesUnwrap "S1"
      (.cons (.mk "A" true false none .tint) .nil) ['1', '}'] (zeroValue tS1)
      rfl rfl rfl,
   c7_wrap_missing_frame_invalid_format.2 6 eBracesUnwrap "S1"
      (.cons (.mk "A" true false none .tint) .nil) [] (zeroValue tS1)
      rfl rfl rfl rfl⟩

theorem memRead_write_ne (m : Mem) (i j : Nat) (cs : List Char) (h : j ≠ i) :
    (m.write i cs).read j = m.read j := by
  rcases m with ⟨bufs⟩
  simp only [Mem.write, Mem.read]
  induction bufs generalizing i j with
  | nil => rfl
  | cons b bs ih =>
    cases i with
    | zero =>
      cases j with
      | zero => exact absurd rfl h
      | succ j1 => rfl
    | succ i1 =>
      cases j with
      | zero => rfl
      | succ j1 =>
        simpa using ih i1 j1 (fun hh => h (by rw [hh]))

theorem runDecodeWrites_read_ne (work r : Nat) (h : r ≠ work) :
    ∀ (muts : List (List Char → List Char)) (m : Mem),
      (runDecodeWrites work muts m).read r = m.read r := by
  intro muts
  induction muts with
  | nil => intro m; rfl
  | cons f rest ih =>
    intro m
    rw [runDecodeWrites, ih, memRead_write_ne _ _ _ _ h]

theorem memRead_append_lt (bufs extra : List (List Char)) (r : Nat)
    (h : r < bufs.length) :
    (Mem.mk (bufs ++ extra)).read r = (Mem.mk bufs).read r := by
  simp only [Mem.read]
  induction bufs generalizing r with
  | nil => exact absurd h (by simp)
  | cons b bs ih =>
    cases r with
    | zero => rfl
    | succ r1 => simpa using ih r1 (by simpa using h)

/-- **C8.** For every caller buffer, every driver behaviour (arbitrary
rewrites of the working buffer at each step) and every engine run length,
`Unmarshal`'s memory behaviour leaves the caller's buffer byte-for-byte
unchanged: the fresh working buffer allocated by the `make`+`copy` never
aliases it. -/
theorem c8_unmarshal_input_buffer_unchanged
    (muts : List (List Char → List Char)) (m : Mem) (dataRef : Nat)
    (h : dataRef < m.bufs.length) :
    (unmarshalMem muts m dataRef).read dataRef = m.read dataRef := by
  rcases m with ⟨bufs⟩
  unfold unmarshalMem Mem.alloc
  rw [runDecodeWrites_read_ne _ _ (Nat.ne_of_lt h)]
  exact memRead_append_lt bufs _ dataRef h

/-- Witness for C8: a driver that overwrites the whole working buffer
leaves the caller's buffer `"ab"` unchanged. -/
theorem c8_unmarshal_input_buffer_unchanged_witness :
    (unmarshalMem [fun _ => ['X', 'X'], fun w => w.drop 1]
        (Mem.mk [['a', 'b']]) 0).read 0 = (Mem.mk [['a', 'b']]).read 0 :=
  c8_unmarshal_input_buffer_unchanged [fun _ => ['X', 'X'], fun w => w.drop 1]
    (Mem.mk [['a', 'b']]) 0 (by decide)

/-! ## Claim C3 — `Marshal` returns no bytes on error

`encodeState.marshal` resets the accumulator whenever `reflectValue`
returns a non-nil error.  But `invalidTagEncoder` — the poisoned encoder
installed when a field's annotation failed to parse — records its error in
the context and returns *nil*, so the loop continues, no reset happens,
and `Marshal` returns the accumulated bytes of the other fields together
with the non-nil error.  The invariant below shows that path is the only
exception. -/

theorem err_chain {a b c : Option Err} (h1 : b = a ∨ optIsInvalidTag b = true)
    (h2 : c = b ∨ optIsInvalidTag c = true) :
    c = a ∨ optIsInvalidTag c = true := by
  rcases h2 with h2 | h2
  · rcases h1 with h1 | h1
    · exact Or.inl (h2.trans h1)
    · exact Or.inr (h2 ▸ h1)
  · exact Or.inr h2

theorem tagEncode_err {T : Type} (e : Engine T) (s : EncState T) (bs : List Char)
    (s1 : EncState T) (h : tagEncode e s bs = (s1, none)) : s1.err = s.err := by
  unfold tagEncode at h
  rcases he : e.tag.encode s.fName s.fMeta bs with m | app <;> rw [he] at h
  · exact absurd h (by simp)
  · injection h with h1 h2
    rw [← h1]

theorem marshallerEncoder_err {T : Type} (e : Engine T) (s : EncState T) (v : Value)
    (s1 : EncState T) (h : marshallerEncoder e s v = (s1, none)) : s1.err = s.err := by
  unfold marshallerEncoder at h
  rcases hm : e.tag.isMarshaller (.vptr v) with _ | r <;> rw [hm] at h
  · injection h with h1 h2
    rw [← h1]
  · rcases r with m | p
    · exact absurd h (by simp)
    · exact tagEncode_err e s p s1 h

/-- The error invariant of the encode pipeline: whenever an encoder
returns nil (no propagated error), the context error is unchanged — or it
is the invalid-tag error that `invalidTagEncoder` records while returning
nil. -/
theorem encode_err_inv (fuel : Nat) :
    (∀ (T : Type) (e : Engine T) (s : EncState T) (t : Ty) (v : Value)
       (s1 : EncState T),
       encodeValue fuel e s t v = (s1, none) →
       s1.err = s.err ∨ optIsInvalidTag s1.err = true)
    ∧ (∀ (T : Type) (e : Engine T) (plan : Plan T) (s : EncState T) (v : Value)
       (wrap : Bool) (s1 : EncState T),
       encodeFields fuel e plan s v wrap = (s1, none) →
       s1.err = s.err ∨ optIsInvalidTag s1.err = true)
    ∧ (∀ (T : Type) (e : Engine T) (plan : Plan T) (s : EncState T) (v : Value)
       (sep : Bool) (s1 : EncState T),
       encodeLoop fuel e plan s v sep = (s1, none) →
       s1.err = s.err ∨ optIsInvalidTag s1.err = true) := by
  induction fuel with
  | zero =>
    refine ⟨fun T e s t v s1 h => ?_, fun T e plan s v wrap s1 h => ?_,
            fun T e plan s v sep s1 h => ?_⟩ <;>
      (injection h with h1 h2; exact Option.noConfusion h2)
  | succ fuel ih =>
    obtain ⟨ihv, ihf, ihl⟩ := ih
    refine ⟨fun T e s t v s1 h => ?_, fun T e plan s v wrap s1 h => ?_,
            fun T e plan s v sep s1 h => ?_⟩
    · rw [encodeValue] at h
      split at h
      · exact Or.inl (marshallerEncoder_err e s v s1 h)
      · exact Or.inl (tagEncode_err e s _ s1 h)
      · exact Or.inl (tagEncode_err e s _ s1 h)
      · exact Or.inl (tagEncode_err e s _ s1 h)
      · exact Or.inl (tagEncode_err e s _ s1 h)
      · exact Or.inl (tagEncode_err e s _ s1 h)
      · -- pointer kind: valueFromPtr then recurse
        split at h
        · exact ihv T e s t.elemOrSelf _ s1 h
        · exact absurd h (by simp)
      · exact ihf T e (typeFields e t) s v e.wrap s1 h
      · exact absurd h (by simp)
    · rw [encodeFields] at h
      split at h
      next s3 heq =>
        -- loop errored: the whole call returns that error, contradiction
        exact absurd h (by simp)
      next s3 heq =>
        have h3 := ihl T e plan _ v false s3 heq
        cases wrap <;> simp only [Bool.false_eq_true, if_false, if_true] at h heq h3 <;>
          (injection h with h1 h2; rw [← h1]) <;>
          exact err_chain (Or.inl rfl) h3
    · cases plan with
      | nil =>
        rw [encodeLoop] at h
        injection h with h1 h2
        rw [← h1]
        exact Or.inl rfl
      | cons fld rest =>
        rw [encodeLoop] at h
        dsimp only at h
        cases sep <;>
          simp only [Bool.false_eq_true, eq_self_iff_true, if_true, if_false] at h <;>
          (repeat' split at h) <;>
          first
          | exact absurd h (fun hc => Option.noConfusion (congrArg Prod.snd hc))
          | (have h2 := ihl _ _ _ _ _ _ _ h; exact h2)
          | (rcases ihl _ _ _ _ _ _ _ h with h0 | h0
             · exact Or.inr ((congrArg optIsInvalidTag h0).trans rfl)
             · exact Or.inr h0)
          | (rename_i heq
             first
             | (have h2 := err_chain (ihv _ _ _ _ _ _ heq) (ihl _ _ _ _ _ _ _ h)
                exact h2)
             | (have h2 := err_chain (ihf _ _ _ _ _ _ _ heq) (ihl _ _ _ _ _ _ _ h)
                exact h2))

/-- **C3 counterexample.** A record whose second field's annotation fails
to parse: `Marshal` returns the first field's bytes `7` *and* a non-nil
(invalid-tag) error — not the empty output the claim demands for every
error source. -/
theorem c3_counterexample_invalid_tag_keeps_bytes :
    Marshal 10 eBadParse tS3 (.vstruct "S3" (.cons (.vint 7) (.cons (.vint 5) .nil)))
      = (['7'], some (.invalidTag "id" "bad" "S3" "B" "boom")) := by rfl

/-- **C3 (amended).** Whenever `Marshal` returns a non-nil error that is
not the deferred annotation-parse (invalid-tag) error, it returns no
bytes: every other error source makes `reflectValue` return a non-nil
error, and `marshal` then resets the accumulator.  (The poisoned
`invalidTagEncoder` instead records its error and returns nil, so the
accumulated bytes survive — see the counterexample.) -/
theorem c3_marshal_no_bytes_on_error (fuel : Nat) (T : Type) (e : Engine T)
    (t : Ty) (v : Value) (er : Err)
    (h : (Marshal fuel e t v).2 = some er)
    (hnt : er.isInvalidTag = false) :
    (Marshal fuel e t v).1 = [] := by
  unfold Marshal at h ⊢
  rcases hv : encodeValue fuel e (initEncState T) t v with ⟨s1, r⟩
  rw [hv] at h
  cases r with
  | none =>
    dsimp only at h
    rcases (encode_err_inv fuel).1 T e (initEncState T) t v s1 hv with h0 | h0
    · rw [h] at h0
      exact Option.noConfusion h0
    · rw [h] at h0
      simp only [optIsInvalidTag] at h0
      rw [hnt] at h0
      exact Bool.noConfusion h0
  | some er2 => cases er2 <;> rfl

/-- Witness for C3: an unsupported-kind value makes `Marshal` fail with
the (non-invalid-tag) unsupported-type error and return no bytes. -/
theorem c3_marshal_no_bytes_on_error_witness :
    (Marshal 10 ePlain .tother .vother).2 = some .notSupportType
    ∧ (Marshal 10 ePlain .tother .vother).1 = [] :=
  ⟨rfl, c3_marshal_no_bytes_on_error 10 String ePlain .tother .vother
    .notSupportType rfl rfl⟩

/-- **C4 counterexample.** The claim's predicate marks the unexported
annotated field of `tUnexpTagged` as visited (its `Skip` is false), but
`typeFields` produces the empty plan: the engine drops unexported
non-embedded fields before ever looking at the annotation. -/
theorem c4_counterexample_unexported_tagged_field :
    typeFields ePlain tUnexpTagged = .nil
    ∧ c4ClaimVisits ePlain (.mk "a" false false (some "x") .tint) = true
    ∧ c4ClaimIndexes ePlain
        (.cons (.mk "a" false false (some "x") .tint) .nil) 0 = [0] :=
  ⟨rfl, rfl, rfl⟩

theorem typeFieldsGo_indexes {T : Type} (e : Engine T) :
    (fds : FieldList) → (i : Nat) → noAnon fds = true → tagsParse e fds = true →
      planIndexes (typeFieldsGo e fds i) = amendedIndexes e fds i
  | .nil, i, _, _ => rfl
  | .cons (.mk nm ex anon tg fty) rest, i, ha, hp => by
    have ih := typeFieldsGo_indexes e rest
    simp only [noAnon, Field.anonymous, Bool.and_eq_true, Bool.not_eq_true'] at ha
    obtain ⟨ha1, ha2⟩ := ha
    simp only [tagsParse, Field.tag, Bool.and_eq_true] at hp
    obtain ⟨hp1, hp2⟩ := hp
    subst ha1
    rw [typeFieldsGo.eq_def]
    dsimp only
    simp only [Bool.false_eq_true, if_false]
    cases ex with
    | false =>
      simp only [Bool.not_false, if_true]
      rw [ih (i + 1) ha2 hp2, amendedIndexes]
      simp only [amendedVisits, Field.exported, Bool.false_and, Bool.false_eq_true,
        if_false]
    | true =>
      simp only [Bool.not_true, Bool.false_eq_true, if_false]
      cases tg with
      | none =>
        dsimp only at hp1 ⊢
        rw [amendedIndexes]
        simp only [amendedVisits, Field.exported, Field.tag, Bool.true_and, if_true,
          planIndexes, PlanField.index]
        rw [ih (i + 1) ha2 hp2]
      | some tv =>
        dsimp only at hp1 ⊢
        rcases hsk : e.tag.skip tv with _ | _
        · rcases hpr : e.tag.parse tv with m | om
          · rw [hsk] at hp1
            rw [hpr] at hp1
            exact absurd hp1 (by simp [parseOk])
          · rcases om with ⟨oe, m⟩
            simp only [hsk, Bool.false_eq_true, if_false, hpr]
            rw [amendedIndexes]
            simp only [amendedVisits, Field.exported, Field.tag, hsk, Bool.not_false,
              Bool.true_and, if_true, planIndexes, PlanField.index]
            rw [ih (i + 1) ha2 hp2]
        · simp only [hsk, if_true]
          rw [amendedIndexes]
          simp only [amendedVisits, Field.exported, Field.tag, hsk, Bool.not_true,
            Bool.true_and, Bool.false_eq_true, if_false]
          exact ih (i + 1) ha2 hp2
  termination_by structural fds i _ _ => fds

/-- **C4 (amended).** For a record type with no embedded fields and whose
annotations all parse, the plan visits exactly the fields that are
*exported* and either carry no annotation or carry one whose `Skip` is
false.  (The claim's clause (b) wrongly includes unexported annotated
fields — see the counterexample; embedded fields, which bypass the
annotation checks entirely, and plans truncated by an annotation parse
failure are excluded.) -/
theorem c4_plan_visits_exported_non_skipped {T : Type} (e : Engine T)
    (sn : String) (fds : FieldList)
    (ha : noAnon fds = true) (hp : tagsParse e fds = true) :
    planIndexes (typeFields e (.tstruct sn fds)) = amendedIndexes e fds 0 :=
  typeFieldsGo_indexes e fds 0 ha hp

/-- Witness for C4 at a concrete record: exported-untitled, unexported,
exported-skipped and exported-kept fields. -/
theorem c4_plan_visits_exported_non_skipped_witness :
    planIndexes (typeFields eSkipAll
      (.tstruct "W" (.cons (.mk "A" true false none .tint)
                     (.cons (.mk "b" false false none .tint)
                      (.cons (.mk "C" true false (some "x") .tint) .nil)))))
      = amendedIndexes eSkipAll
          (.cons (.mk "A" true false none .tint)
           (.cons (.mk "b" false false none .tint)
            (.cons (.mk "C" true false (some "x") .tint) .nil))) 0 :=
  c4_plan_visits_exported_non_skipped eSkipAll "W"
    (.cons (.mk "A" true false none .tint)
     (.cons (.mk "b" false false none .tint)
      (.cons (.mk "C" true false (some "x") .tint) .nil))) rfl rfl

/-! ## Claim C1 — the round-trip law

Decimal formatting/parsing facts needed to settle it. -/

theorem charDigit_digitChar : ∀ d, d < 10 → charDigit (digitChar d) = some d := by
  decide

theorem digitChar_ne_sign : ∀ d, d < 10 → digitChar d ≠ '-' ∧ digitChar d ≠ '+' := by
  decide

theorem isSpaceByte_digitChar : ∀ d, d < 10 → isSpaceByte (digitChar d) = false := by
  decide

theorem parseDigitsAux_append (xs ys : List Char) :
    ∀ a, parseDigitsAux a (xs ++ ys)
      = match parseDigitsAux a xs with
        | some b => parseDigitsAux b ys
        | none => none := by
  induction xs with
  | nil => intro a; rfl
  | cons c cs ih =>
    intro a
    rw [List.cons_append, parseDigitsAux, parseDigitsAux]
    rcases hc : charDigit c with _ | d
    · rfl
    · exact ih _

/-- The digit loop of `formatUint` emits a non-empty run of decimal
digits which, prepended to any accumulator and fed back to the digit
parser, reconstructs the value. -/
theorem formatUintAux_spec :
    ∀ (fuel n : Nat) (acc : List Char), n < fuel →
      ∃ ds, formatUintAux fuel n acc = ds ++ acc ∧ ds ≠ []
        ∧ (∀ c ∈ ds, ∃ d, d < 10 ∧ c = digitChar d)
        ∧ ∀ a, parseDigitsAux a ds = some (a * 10 ^ ds.length + n) := by
  intro fuel
  induction fuel with
  | zero => intro n acc h; exact absurd h (Nat.not_lt_zero n)
  | succ fuel ih =>
    intro n acc h
    rw [formatUintAux]
    by_cases h10 : n < 10
    · rw [if_pos h10]
      refine ⟨[digitChar n], rfl, by simp, ?_, ?_⟩
      · intro c hc
        rw [List.mem_singleton] at hc
        exact ⟨n, h10, hc⟩
      · intro a
        rw [parseDigitsAux, charDigit_digitChar n h10]
        simp [parseDigitsAux]
    · rw [if_neg h10]
      have hlt : n / 10 < fuel := by
        have h1 : n / 10 < n := Nat.div_lt_self (by omega) (by omega)
        omega
      obtain ⟨ds, hds, hne, hdig, hparse⟩ := ih (n / 10) (digitChar (n % 10) :: acc) hlt
      refine ⟨ds ++ [digitChar (n % 10)], ?_, by simp, ?_, ?_⟩
      · rw [hds, List.append_assoc, List.singleton_append]
      · intro c hc
        rcases List.mem_append.mp hc with hc | hc
        · exact hdig c hc
        · rw [List.mem_singleton] at hc
          exact ⟨n % 10, Nat.mod_lt n (by omega), hc⟩
      · intro a
        rw [parseDigitsAux_append, hparse a]
        dsimp only
        rw [parseDigitsAux, charDigit_digitChar (n % 10) (Nat.mod_lt n (by omega))]
        show parseDigitsAux ((a * 10 ^ ds.length + n / 10) * 10 + n % 10) [] = _
        rw [parseDigitsAux]
        congr 1
        rw [List.length_append, List.length_singleton, pow_succ, ← Nat.mul_assoc]
        omega

theorem parseDigits_formatUint (n : Nat) : parseDigits (formatUint n) = some n := by
  obtain ⟨ds, hds, hne, _, hparse⟩ := formatUintAux_spec (n + 1) n [] (Nat.lt_succ_self n)
  rw [formatUint, hds, List.append_nil]
  have hp : parseDigits ds = parseDigitsAux 0 ds := by
    cases ds with
    | nil => exact absurd rfl hne
    | cons c cs => rfl
  rw [hp, hparse 0]
  simp

theorem formatUint_spec (n : Nat) :
    formatUint n ≠ [] ∧ ∀ c ∈ formatUint n, ∃ d, d < 10 ∧ c = digitChar d := by
  obtain ⟨ds, hds, hne, hdig, _⟩ := formatUintAux_spec (n + 1) n [] (Nat.lt_succ_self n)
  rw [formatUint, hds, List.append_nil]
  exact ⟨hne, hdig⟩

theorem formatInt_ne_nil (i : Int) : formatInt i ≠ [] := by
  unfold formatInt
  by_cases hneg : i < 0
  · rw [if_pos hneg]
    simp
  · rw [if_neg hneg]
    exact (formatUint_spec i.toNat).1

theorem formatInt_not_space (i : Int) : ∀ c ∈ formatInt i, isSpaceByte c = false := by
  unfold formatInt
  by_cases hneg : i < 0
  · rw [if_pos hneg]
    intro c hc
    rcases List.mem_cons.mp hc with hc | hc
    · rw [hc]; rfl
    · obtain ⟨d, hd, hcd⟩ := (formatUint_spec i.natAbs).2 c hc
      rw [hcd]
      exact isSpaceByte_digitChar d hd
  · rw [if_neg hneg]
    intro c hc
    obtain ⟨d, hd, hcd⟩ := (formatUint_spec i.toNat).2 c hc
    rw [hcd]
    exact isSpaceByte_digitChar d hd

theorem dropWhile_eq_self_of {p : Char → Bool} {cs : List Char}
    (h : ∀ c ∈ cs, p c = false) : cs.dropWhile p = cs := by
  cases cs with
  | nil => rfl
  | cons c cs1 =>
    rw [List.dropWhile_cons, h c (List.mem_cons_self c cs1)]
    simp

theorem trimSpace_eq_self {cs : List Char}
    (h : ∀ c ∈ cs, isSpaceByte c = false) : trimSpace cs = cs := by
  unfold trimSpace
  rw [dropWhile_eq_self_of h, dropWhile_eq_self_of (fun c hc => h c (List.mem_reverse.mp hc)),
    List.reverse_reverse]

theorem trimSpace_formatInt (i : Int) : trimSpace (formatInt i) = formatInt i :=
  trimSpace_eq_self (formatInt_not_space i)

/-- Go `ParseInt(FormatInt(i), 10, 64) = (i, nil)` for `i` in int64
range. -/
theorem parseIntGo_formatInt (i : Int) (hlo : -(2 ^ 63 : Int) ≤ i)
    (hhi : i < 2 ^ 63) : parseIntGo (formatInt i) = (i, none) := by
  unfold parseIntGo formatInt
  by_cases hneg : i < 0
  · rw [if_pos hneg]
    split
    rename_i x neg rest heq
    split at heq
    · rename_i r2 heq2
      injection heq2 with _ h2
      subst h2
      injection heq with h3 h4
      subst h3
      subst h4
      rw [parseDigits_formatUint]
      dsimp only
      rw [if_pos rfl]
      have hle : i.natAbs ≤ 2 ^ 63 := by omega
      rw [if_pos hle]
      congr 1
      omega
    · rename_i r2 heq2
      injection heq2 with h1 _
      exact absurd h1 (by decide)
    · rename_i h1 h2
      exact absurd rfl (fun hc => h1 (formatUint i.natAbs) hc)
  · rw [if_neg hneg]
    obtain ⟨hne, hdig⟩ := formatUint_spec i.toNat
    obtain ⟨c, cs, hd⟩ : ∃ c cs, formatUint i.toNat = c :: cs := by
      cases hfu : formatUint i.toNat with
      | nil => exact absurd hfu hne
      | cons c cs => exact ⟨c, cs, rfl⟩
    obtain ⟨d, hd10, hcd⟩ := hdig c (hd ▸ List.mem_cons_self c cs)
    rw [hd]
    have hsign := digitChar_ne_sign d hd10
    have hc1 : c ≠ '-' := hcd ▸ hsign.1
    have hc2 : c ≠ '+' := hcd ▸ hsign.2
    split
    rename_i x neg rest heq
    split at heq
    · rename_i r2 heq2
      injection heq2 with h1 _
      exact absurd h1 hc1
    · rename_i r2 heq2
      injection heq2 with h1 _
      exact absurd h1 hc2
    · injection heq with h3 h4
      subst h3
      subst h4
      rw [← hd, parseDigits_formatUint]
      dsimp only
      simp only [Bool.false_eq_true, if_false]
      have hle : i.toNat ≤ 2 ^ 63 - 1 := by omega
      rw [if_pos hle]
      congr 1
      omega

/-- Shared helper: the int decoder's value dispatch — for an engine with no
unmarshaler override on `int`, `decodeValue` at kind `int` parses the
extracted bytes (`s.buf`) and `Set`s the result regardless of the target
value. -/
theorem decodeValue_int_ePlain (fuel : Nat) (s : DecState String) (v : Value) :
    decodeValue (fuel + 1) ePlain s .tint v
      = (s, .vint (parseIntGo s.buf).1, (parseIntGo s.buf).2) := by
  have hd : (typeCoders ePlain .tint).2 = .intD := rfl
  cases v <;> rw [decodeValue, hd] <;> first | rfl | nofun

/-- Shared helper: a one-int-field record decoded by the plain identity
engine from a whitespace-free, non-empty buffer that parses as `n` comes
back as the record with field value `n`, with no error. -/
theorem unmarshal_tS1 (data : List Char) (n : Int)
    (htrim : trimSpace data = data) (hne : data ≠ [])
    (hparse : parseIntGo data = (n, none)) :
    Unmarshal 10 ePlain tS1 data (vS1 0) = (none, vS1 n) := by
  obtain ⟨c, cs, hd⟩ : ∃ c cs, data = c :: cs := by
    cases data with
    | nil => exact absurd rfl hne
    | cons c cs => exact ⟨c, cs, rfl⟩
  subst hd
  have hptr : ∀ (m : Nat) (s : DecState String) (v : Value),
      decodeValue (m + 1) ePlain s (.tptr tS1) (.vptr v)
        = (match decodeValue m ePlain s tS1 v with
           | (s1, x1, er) => (s1, Value.vptr x1, er)) := by
    intro m s v
    rw [decodeValue]
    simp only [typeCoders, kindDecoder, Option.getD, Ty.elemOrSelf]
  have hstruct : ∀ (m : Nat) (s : DecState String) (v : Value),
      decodeValue (m + 1) ePlain s tS1 v
        = decodeFields m ePlain (typeFields ePlain tS1) s v ePlain.wrap := by
    intro m s v
    have hds : (typeCoders ePlain tS1).2 = .structD := rfl
    cases v <;> rw [decodeValue, hds] <;> nofun
  have hw : ePlain.wrap = false := rfl
  have hplan : typeFields ePlain tS1
      = Plan.cons (.mk 0 "A" .tint none false none none) Plan.nil := rfl
  unfold Unmarshal
  rw [hptr, hstruct, hw, hplan, decodeFields]
  dsimp only [initDecState]
  simp only [Bool.false_eq_true, if_false]
  rw [decodeLoop]
  dsimp only
  rw [htrim]
  rw [if_neg (fun hor => Or.elim hor (fun h => List.cons_ne_nil c cs h)
    (fun h => Bool.noConfusion h.1))]
  simp only [Bool.false_eq_true, if_false]
  dsimp only [PlanField.embedded, PlanField.name, PlanField.meta, PlanField.ty,
    PlanField.index, PlanField.poison]
  have hdec : ∀ (nm : String) (mt : Option String) (dt : List Char),
      ePlain.tag.decode nm mt dt = .ok (dt, dt) := fun _ _ _ => rfl
  rw [hdec]
  dsimp only
  simp only [List.nil_append, List.length_cons]
  rw [if_neg (Nat.succ_ne_zero cs.length)]
  rw [decodeValue_int_ePlain]
  dsimp only
  rw [hparse]
  dsimp only
  rw [decodeLoop_nil]
  rfl

/-- **C1 (amended).**  With the identity round-trip driver and an
unframed engine, the round-trip law `Unmarshal (Marshal v) = v` holds for
a record with a single int field, for every field value in int64 range:
`Marshal` succeeds, and `Unmarshal` of its output restores exactly `v`
starting from the zero record.  (The unrestricted law over all supported
record shapes is refuted by `c1_counterexample_two_field_roundtrip`: the
identity driver's `Decode` does not consume the working buffer, so with
two or more fields every field re-reads the same remaining bytes.) -/
theorem c1_roundtrip_single_int_field (n : Int)
    (hlo : -(2 ^ 63 : Int) ≤ n) (hhi : n < 2 ^ 63) :
    Marshal 10 ePlain tS1 (vS1 n) = (formatInt n, none)
    ∧ Unmarshal 10 ePlain tS1 (Marshal 10 ePlain tS1 (vS1 n)).1 (zeroValue tS1)
        = (none, vS1 n) := by
  have hm : Marshal 10 ePlain tS1 (vS1 n) = (formatInt n, none) := rfl
  refine ⟨hm, ?_⟩
  rw [hm]
  exact unmarshal_tS1 (formatInt n) n (trimSpace_formatInt n) (formatInt_ne_nil n)
    (parseIntGo_formatInt n hlo hhi)

/-- Witness for C1 at `n = 5`: `Marshal` yields `"5"` and `Unmarshal`
restores the record. -/
theorem c1_roundtrip_single_int_field_witness :
    Marshal 10 ePlain tS1 (vS1 5) = (['5'], none)
    ∧ Unmarshal 10 ePlain tS1 (Marshal 10 ePlain tS1 (vS1 5)).1 (zeroValue tS1)
        = (none, vS1 5) := by
  have h := c1_roundtrip_single_int_field 5 (by decide) (by decide)
  exact ⟨h.1, h.2⟩

/-- Counterexample to C1 as stated: for the two-int-field record `S2`
with `A = 4`, `B = 2`, `Marshal` writes `"42"`, but the identity driver's
`Decode` hands the whole remaining buffer to every field and consumes
nothing, so `Unmarshal` parses `42` into *both* fields: the round trip
returns `{A: 42, B: 42} ≠ {A: 4, B: 2}` (and no error is reported). -/
theorem c1_counterexample_two_field_roundtrip :
    Marshal 10 ePlain tS2 (vS2 4 2) = (['4', '2'], none)
    ∧ Unmarshal 10 ePlain tS2 ['4', '2'] (zeroValue tS2) = (none, vS2 42 42)
    ∧ vS2 42 42 ≠ vS2 4 2 := by
  refine ⟨rfl, rfl, ?_⟩
  decide

end FormatEngine
